import Mathlib

/-!
Shallow embedding of `src/word_chain.py` (the "Word Chain" logic-link puzzle
engine) and verification of the frozen claims about it.

Modelling conventions, stated once:

* Python `str` is Lean `String`; Python string comparison (`sorted`, `<`) is
  lexicographic on code points, embedded by the executable `listLtB` below on
  the underlying `List Char` (Mathlib's `String.lt` via `ltb` is
  proof-equivalent but does not kernel-reduce, so we keep our own Bool-valued
  comparison and prove the order facts we need about it).
* Python `set` is `Finset` (membership, `&`, `add`, `remove`, `len` map to
  `∈`, `∩`, `insert`, `erase`, `card`).
* Python `dict` built by `{t.name: t for t in tiles}` is kept as the
  underlying `List Tile`; key membership is membership in the name list, a
  key lookup takes the last tile with that name (later dict assignments win),
  and the key iteration order is first-occurrence order (`eraseDups`).
* `tile.name in tuple_edge` is `fst = name ∨ snd = name`.
* Fallible code (`self.tiles[a]`, which raises `KeyError` for an absent key)
  returns `Option`: `none` models the exception propagating to the caller.
* Python ints appearing in `len(edges) != n - 1` comparisons are embedded in
  `Int` so that `n - 1` for `n = 0` is `-1` exactly as in Python, not a
  truncated natural.
* The Mersenne-Twister stream behind `random.seed(seed)` /
  `random.randint(1000, 9999)` is opaque third-party state; it is embedded as
  an arbitrary draw stream `r : Nat → Nat` (the i-th call to `randint`
  returns `r i`), with the documented range `1000 ≤ r i ≤ 9999` taken as a
  hypothesis where needed.  A "seed" in the claims corresponds to such a
  stream.
-/

namespace WordChain

/-! ### Lexicographic string comparison (Python `<` on `str`) -/

/-- Executable lexicographic `<` on char lists, by code point, exactly
Python's string comparison: a proper shorter list that is equal so far is
smaller, otherwise the first differing character decides. -/
def listLtB : List Char → List Char → Bool
  | _, [] => false
  | [], _ :: _ => true
  | a :: as, b :: bs => decide (a.toNat < b.toNat) || (a = b && listLtB as bs)

theorem listLtB_irrefl : ∀ l : List Char, listLtB l l = false
  | [] => rfl
  | a :: as => by
    simp only [listLtB, Bool.or_eq_false_iff, Bool.and_eq_false_iff]
    exact ⟨by simp, Or.inr (listLtB_irrefl as)⟩

theorem listLtB_total : ∀ l m : List Char, listLtB l m = false → listLtB m l = false → l = m
  | [], [] => fun _ _ => rfl
  | [], _ :: _ => fun h _ => by simp [listLtB] at h
  | _ :: _, [] => fun _ h => by simp [listLtB] at h
  | a :: as, b :: bs => fun h h' => by
    simp only [listLtB, Bool.or_eq_false_iff, Bool.and_eq_false_iff,
      decide_eq_true_eq, decide_eq_false_iff_not] at h h'
    obtain ⟨hab, h2⟩ := h
    obtain ⟨hba, h2'⟩ := h'
    have hab' : a = b := by
      have := Char.le_antisymm (Nat.le_of_not_lt hba) (Nat.le_of_not_lt hab)
      exact this
    subst hab'
    rcases h2 with h2 | h2
    · simp at h2
    · rcases h2' with h2' | h2'
      · simp at h2'
      · rw [listLtB_total as bs h2 h2']

/-! ### Data model (`Tile`, `normalize`, `is_real_tag`) -/

/-- `@dataclass(frozen=True) class Tile`: a name plus a set of tags. -/
structure Tile where
  name : String
  tags : Finset String
deriving DecidableEq

/-- `def normalize(a, b): return tuple(sorted((a, b)))` — the canonical
(lexicographically ordered) form of an undirected edge. -/
def normalize (a b : String) : String × String :=
  if listLtB b.data a.data then (b, a) else (a, b)

/-- `def is_real_tag(tag): return not tag.startswith("decoy:")`.
`str.startswith` is embedded as `List.isPrefixOf` on the char data. -/
def is_real_tag (tag : String) : Bool :=
  !("decoy:".data.isPrefixOf tag.data)

theorem listLtB_asymm : ∀ l m : List Char, listLtB l m = true → listLtB m l = true → False
  | [], [], h, _ => by simp [listLtB] at h
  | [], _ :: _, _, h' => by simp [listLtB] at h'
  | _ :: _, [], h, _ => by simp [listLtB] at h
  | a :: as, b :: bs, h, h' => by
    simp only [listLtB, Bool.or_eq_true, Bool.and_eq_true, decide_eq_true_eq] at h h'
    rcases h with h | ⟨heq, h⟩
    · rcases h' with h' | ⟨heq', h'⟩
      · omega
      · rw [heq'] at h; omega
    · rcases h' with h' | ⟨heq', h'⟩
      · rw [heq] at h'; omega
      · exact listLtB_asymm as bs h h'

theorem normalize_comm (a b : String) : normalize a b = normalize b a := by
  unfold normalize
  rcases h : listLtB b.data a.data
  · rcases h' : listLtB a.data b.data
    · have hd := listLtB_total _ _ h' h
      have hab : a = b := by
        cases a; cases b; exact congrArg String.mk hd
      simp [hab]
    · rfl
  · rcases h' : listLtB a.data b.data
    · rfl
    · exact absurd (listLtB_asymm _ _ h' h) (by simp)

theorem normalize_fst_or (a b : String) :
    (normalize a b).1 = a ∨ (normalize a b).1 = b := by
  unfold normalize; split <;> simp

theorem normalize_snd_or (a b : String) :
    (normalize a b).2 = a ∨ (normalize a b).2 = b := by
  unfold normalize; split <;> simp

theorem normalize_mem_iff (a b t : String) :
    (t = (normalize a b).1 ∨ t = (normalize a b).2) ↔ (t = a ∨ t = b) := by
  unfold normalize; split <;> simp <;> tauto

/-! ### The `ChainReaction` link-graph engine -/

/-- State of a `ChainReaction` instance: the tile registry (the dict's
underlying tile list), the mutable edge set, the frozen reference solution
(already normalized, as done in `__init__`), and `max_degree`. -/
structure ChainReaction where
  tiles : List Tile
  edges : Finset (String × String)
  solution_edges : Finset (String × String)
  max_degree : Nat
deriving DecidableEq

/-- `ChainReaction.__init__`: fresh empty edge set, solution edges
normalized (`{normalize(*e) for e in solution_edges}`), default
`max_degree = 2`. -/
def ChainReaction.make (tiles : List Tile) (solution_edges : Finset (String × String))
    (max_degree : Nat) : ChainReaction :=
  ⟨tiles, ∅, solution_edges.image (fun e => normalize e.1 e.2), max_degree⟩

namespace ChainReaction

/-- Key membership in the `self.tiles` dict (`a in self.tiles` /
`a not in self.tiles`). -/
def hasTile (g : ChainReaction) (n : String) : Prop :=
  n ∈ g.tiles.map Tile.name

instance (g : ChainReaction) (n : String) : Decidable (g.hasTile n) := by
  unfold hasTile; infer_instance

/-- Dict value lookup `self.tiles[n]`: the last tile with that name wins
(later dict assignments override earlier ones); `none` models `KeyError`. -/
def lookup (g : ChainReaction) (n : String) : Option Tile :=
  g.tiles.reverse.find? (fun t => t.name = n)

/-- Tag set of a registered tile; junk value `∅` for absent names (only ever
used *after* registry membership has been checked, mirroring the source). -/
def tagsOf (g : ChainReaction) (n : String) : Finset String :=
  ((g.lookup n).map Tile.tags).getD ∅

/-- `def degree(self, node): return sum(1 for e in self.edges if node in e)`. -/
def degree (g : ChainReaction) (node : String) : Nat :=
  (g.edges.filter (fun e => node = e.1 ∨ node = e.2)).card

/-- `def share_tag(self, a, b, real_only=False)`.  `self.tiles[a]` raises
`KeyError` when `a` (or then `b`) is not a key, so the result is an
`Option`; `none` is the exception escaping to the caller. -/
def share_tag (g : ChainReaction) (a b : String) (real_only : Bool) :
    Option (Finset String) := do
  let ta ← g.lookup a
  let tb ← g.lookup b
  let shared := ta.tags ∩ tb.tags
  if real_only then pure (shared.filter (fun t => is_real_tag t = true)) else pure shared

/-- The shared-tag set in the non-raising region (both names registered):
`tiles[a].tags & tiles[b].tags`, filtered to real tags iff `real_only`. -/
def sharedTags (g : ChainReaction) (a b : String) (real_only : Bool) : Finset String :=
  let shared := g.tagsOf a ∩ g.tagsOf b
  if real_only then shared.filter (fun t => is_real_tag t = true) else shared

theorem share_tag_eq_of_registered (g : ChainReaction) (a b : String) (ro : Bool)
    (ha : (g.lookup a).isSome) (hb : (g.lookup b).isSome) :
    g.share_tag a b ro = some (g.sharedTags a b ro) := by
  unfold share_tag sharedTags tagsOf
  rcases Option.isSome_iff_exists.mp ha with ⟨ta, hta⟩
  rcases Option.isSome_iff_exists.mp hb with ⟨tb, htb⟩
  rw [hta, htb]
  cases ro <;> simp

theorem lookup_isSome_iff_hasTile (g : ChainReaction) (n : String) :
    (g.lookup n).isSome = true ↔ g.hasTile n := by
  unfold lookup hasTile
  rw [List.find?_isSome]
  constructor
  · rintro ⟨t, ht, hname⟩
    rw [List.mem_reverse] at ht
    simp only [decide_eq_true_eq] at hname
    exact hname ▸ List.mem_map_of_mem Tile.name ht
  · rintro hn
    rcases List.mem_map.mp hn with ⟨t, ht, hname⟩
    exact ⟨t, List.mem_reverse.mpr ht, by simp [hname]⟩

/-- `def can_connect(self, a, b, difficulty="Easy")`: the five ordered,
short-circuited precondition checks of the source, with its exact reason
strings. -/
def can_connect (g : ChainReaction) (a b : String) (difficulty : String) :
    Bool × String :=
  if ¬ g.hasTile a ∨ ¬ g.hasTile b then
    (false, "One or both tiles don't exist.")
  else if a = b then
    (false, "Cannot connect a tile to itself.")
  else if normalize a b ∈ g.edges then
    (false, "Those tiles are already connected.")
  else if g.max_degree ≤ g.degree a ∨ g.max_degree ≤ g.degree b then
    (false, "A tile would exceed the maximum of 2 connections.")
  else if difficulty = "Hard" then
    if (g.sharedTags a b (difficulty = "Hard")).card ≠ 1 then
      (false, "Hard mode: tiles must share exactly one real tag.")
    else (true, "")
  else
    if g.sharedTags a b (difficulty = "Hard") = ∅ then
      (false, "Those tiles don't share a logical link (no common tag).")
    else (true, "")

/-- `def add_edge(self, a, b, difficulty="Easy")`: re-runs `can_connect`; on
success inserts the canonical link and builds the success message (with the
sorted shared tags); on failure returns the reason unchanged.  The new state
is returned alongside the result pair. -/
def add_edge (g : ChainReaction) (a b : String) (difficulty : String) :
    (Bool × String) × ChainReaction :=
  let (ok, msg) := g.can_connect a b difficulty
  if ok then
    let g' := { g with edges := insert (normalize a b) g.edges }
    let shared := String.intercalate ", "
      ((g.sharedTags a b (difficulty = "Hard")).sort (· ≤ ·))
    ((true, "Linked " ++ a ++ " ↔ " ++ b ++
        (if shared = "" then "" else "  (shared tag: " ++ shared ++ ")")), g')
  else
    ((false, msg), g)

/-- `def remove_edge(self, a, b)`: removes the canonical link if present,
else fails with "no such link". -/
def remove_edge (g : ChainReaction) (a b : String) : (Bool × String) × ChainReaction :=
  if normalize a b ∉ g.edges then
    ((false, "That link doesn't exist."), g)
  else
    ((true, "Removed link " ++ a ++ " – " ++ b ++ "."),
      { g with edges := g.edges.erase (normalize a b) })

/-- `def auto_solve(self): self.edges = set(self.solution_edges)`. -/
def auto_solve (g : ChainReaction) : ChainReaction :=
  { g with edges := g.solution_edges }

/-! #### `is_complete_chain` -/

/-- The dict's key list (`self.tiles` iterated as keys): names in
first-occurrence order, duplicates dropped. -/
def keyList (g : ChainReaction) : List String :=
  (g.tiles.map Tile.name).eraseDups

/-- The adjacency map built by
`for a, b in edges: adj[a].add(b); adj[b].add(a)`:
the neighbour set of `x` collects the other endpoint of every edge touching
`x`.  (The Python loop raises `KeyError` on an edge endpoint outside the
registry; every edge set the theorems below evaluate this on lies over the
registry, where the two agree.) -/
def adjOf (edges : Finset (String × String)) (x : String) : Finset String :=
  (edges.filter (fun e => e.1 = x)).image Prod.snd ∪
    (edges.filter (fun e => e.2 = x)).image Prod.fst

/-- `degs[k] = len(adj[k])` of `is_complete_chain`. -/
def adjDeg (g : ChainReaction) (x : String) : Nat :=
  (adjOf g.edges x).card

/-- `ones = [k for k, d in degs.items() if d == 1]` (dict iteration order =
key order). -/
def onesList (g : ChainReaction) : List String :=
  g.keyList.filter (fun k => g.adjDeg k = 1)

/-- `twos = [k for k, d in degs.items() if d == 2]`. -/
def twosList (g : ChainReaction) : List String :=
  g.keyList.filter (fun k => g.adjDeg k = 2)

/-- `zeros = [k for k, d in degs.items() if d == 0]`. -/
def zerosList (g : ChainReaction) : List String :=
  g.keyList.filter (fun k => g.adjDeg k = 0)

/-- The `while stack:` depth-first traversal of `is_complete_chain`, with
explicit fuel (the Python loop terminates because `visited` grows; the fuel
passed by `dfsVisited` dominates the total number of stack operations).
Python iterates the set `adj[cur] - visited` in unspecified order; the
embedding enumerates that same set in registry order (`keyList.filter`),
which changes nothing observable: the visited set this computes is the
connected component of the start vertex either way. -/
def dfsRun (keys : List String) (edges : Finset (String × String)) :
    Nat → List String → Finset String → Finset String
  | 0, _, visited => visited
  | _ + 1, [], visited => visited
  | fuel + 1, cur :: stack, visited =>
    if cur ∈ visited then dfsRun keys edges fuel stack visited
    else
      let visited' := insert cur visited
      dfsRun keys edges fuel
        (keys.filter (fun y => y ∈ adjOf edges cur ∧ y ∉ visited') ++ stack)
        visited'

/-- `visited` after the traversal that starts from `ones[0]`. -/
def dfsVisited (g : ChainReaction) : Finset String :=
  match g.onesList with
  | [] => ∅
  | start :: _ =>
    dfsRun g.keyList g.edges
      (g.keyList.length * g.keyList.length + g.keyList.length + 1) [start] ∅

/-- Steps 1–4 of `is_complete_chain` (everything before the traversal):
edge count is `n - 1`, no isolated tile, exactly two endpoints and `n - 2`
interior tiles. -/
def shapeChecks (g : ChainReaction) : Bool :=
  decide ((g.edges.card : Int) = (g.keyList.length : Int) - 1) &&
    g.zerosList.isEmpty &&
    decide (g.onesList.length = 2) &&
    decide ((g.twosList.length : Int) = (g.keyList.length : Int) - 2)

/-- `def is_complete_chain(self)`: the staged structural check of the
source, with its exact messages. -/
def is_complete_chain (g : ChainReaction) : Bool × String :=
  if (g.edges.card : Int) ≠ (g.keyList.length : Int) - 1 then
    (false, "Not all tiles are connected into a single chain yet.")
  else if ¬ g.zerosList.isEmpty then
    (false, "Some tiles are isolated.")
  else if g.onesList.length ≠ 2 ∨ ((g.twosList.length : Int) ≠ (g.keyList.length : Int) - 2) then
    (false, "Chain must have exactly two ends; others should have two links.")
  else if g.dfsVisited.card ≠ g.keyList.length then
    (false, "All tiles must be connected.")
  else
    (true, "Chain complete!")

end ChainReaction

/-! ### The handcrafted puzzle catalog (`PUZZLES`) -/

def tiles1 : List Tile :=
  [⟨"Dog", {"canine", "pet", "bone"}⟩,
   ⟨"Bone", {"bone", "calcium"}⟩,
   ⟨"Calcium", {"calcium", "milk"}⟩,
   ⟨"Milk", {"milk", "feline"}⟩,
   ⟨"Cat", {"feline", "fur"}⟩,
   ⟨"Fur", {"fur", "coat"}⟩,
   ⟨"Coat", {"coat", "winter"}⟩,
   ⟨"Winter", {"winter", "season"}⟩]

def sol1 : Finset (String × String) :=
  {("Dog", "Bone"), ("Bone", "Calcium"), ("Calcium", "Milk"),
   ("Milk", "Cat"), ("Cat", "Fur"), ("Fur", "Coat"), ("Coat", "Winter")}

def tiles2 : List Tile :=
  [⟨"Sun", {"star", "sunlight"}⟩,
   ⟨"Light", {"sunlight", "photosynthesis", "illumination"}⟩,
   ⟨"Plant", {"photosynthesis", "green"}⟩,
   ⟨"Oxygen", {"oxygen", "gas"}⟩,
   ⟨"Human", {"breath", "person"}⟩,
   ⟨"Exercise", {"fitness", "breath"}⟩,
   ⟨"Health", {"fitness", "wellness"}⟩,
   ⟨"Longevity", {"wellness", "aging"}⟩]

def sol2 : Finset (String × String) :=
  {("Sun", "Light"), ("Light", "Plant"), ("Plant", "Oxygen"),
   ("Oxygen", "Human"), ("Human", "Exercise"), ("Exercise", "Health"), ("Health", "Longevity")}

def tiles3 : List Tile :=
  [⟨"Wheat", {"grain", "flour"}⟩,
   ⟨"Flour", {"flour", "dough"}⟩,
   ⟨"Dough", {"dough", "yeast"}⟩,
   ⟨"Bread", {"yeast", "bakery"}⟩,
   ⟨"Sandwich", {"bakery", "lunch"}⟩,
   ⟨"Picnic", {"lunch", "outdoor"}⟩,
   ⟨"Sunset", {"outdoor", "evening"}⟩,
   ⟨"Stars", {"evening", "night"}⟩]

def sol3 : Finset (String × String) :=
  {("Wheat", "Flour"), ("Flour", "Dough"), ("Dough", "Bread"),
   ("Bread", "Sandwich"), ("Sandwich", "Picnic"), ("Picnic", "Sunset"), ("Sunset", "Stars")}

def tiles4 : List Tile :=
  [⟨"Passport", {"id", "travel"}⟩,
   ⟨"Airport", {"travel", "flight"}⟩,
   ⟨"Plane", {"flight", "wing"}⟩,
   ⟨"Clouds", {"wing", "sky"}⟩,
   ⟨"Skyline", {"sky", "city"}⟩,
   ⟨"Hotel", {"city", "stay"}⟩,
   ⟨"Breakfast", {"stay", "meal"}⟩,
   ⟨"Coffee", {"meal", "caffeine"}⟩]

def sol4 : Finset (String × String) :=
  {("Passport", "Airport"), ("Airport", "Plane"), ("Plane", "Clouds"),
   ("Clouds", "Skyline"), ("Skyline", "Hotel"), ("Hotel", "Breakfast"), ("Breakfast", "Coffee")}

def PUZZLES : List (List Tile × Finset (String × String)) :=
  [(tiles1, sol1), (tiles2, sol2), (tiles3, sol3), (tiles4, sol4)]

/-! ### Decoy injection and puzzle building -/

/-- The decoy tag string injected for a tile named `name` from the random
draw `v`: the Python f-string interpolating the tile name and the drawn int
after the "decoy:" marker, the int rendered in decimal (`Nat.repr`). -/
def decoyTag (name : String) (v : Nat) : String :=
  "decoy:" ++ name ++ ":" ++ Nat.repr v

/-- The set of decoy tags the loop adds for one tile: draws
`base, base+1, ..., base+n-1` of the stream, each rendered through
`decoyTag` (a Python `set.add` loop, so duplicates collapse). -/
def decoySet (name : String) (n : Nat) (r : Nat → Nat) (base : Nat) : Finset String :=
  ((List.range n).map (fun j => decoyTag name (r (base + j)))).toFinset

/-- One tile's pass of the decoy loop: `tags = set(t.tags)` then
`n_decoys_each` times `tags.add(f"decoy:...")`, the i-th tile's j-th call to
`randint` being overall draw number `base + j` of the stream `r`. -/
def addDecoysTile (t : Tile) (n_decoys_each : Nat) (r : Nat → Nat) (base : Nat) : Tile :=
  ⟨t.name, t.tags ∪ decoySet t.name n_decoys_each r base⟩

/-- The loop of `add_decoys_non_overlapping` over the tile list, threading
the position in the random stream. -/
def addDecoysGo (n_decoys_each : Nat) (r : Nat → Nat) : Nat → List Tile → List Tile
  | _, [] => []
  | base, t :: ts =>
    addDecoysTile t n_decoys_each r base :: addDecoysGo n_decoys_each r (base + n_decoys_each) ts

/-- `def add_decoys_non_overlapping(tiles, n_decoys_each=1, seed=0)`.
`random.seed(seed)` pins the draw stream; the stream itself is the opaque
parameter `r` (draw number `i` of the seeded generator returns `r i`). -/
def add_decoys_non_overlapping (tiles : List Tile) (n_decoys_each : Nat) (r : Nat → Nat) :
    List Tile :=
  addDecoysGo n_decoys_each r 0 tiles

/-- `def build_puzzle_by_index(idx, difficulty, seed)`. -/
def build_puzzle_by_index (idx : Nat) (difficulty : String) (r : Nat → Nat) : ChainReaction :=
  let base := PUZZLES.get ⟨idx % PUZZLES.length, Nat.mod_lt _ (by decide)⟩
  let tiles :=
    if difficulty = "Medium" ∨ difficulty = "Hard" then
      add_decoys_non_overlapping base.1 (if difficulty = "Medium" then 1 else 2) r
    else base.1
  ChainReaction.make tiles base.2 2

/-! ### Claim C1: the five ordered precondition checks of `can_connect` -/

/-- Spec check 1: both names exist in the registry. -/
def checkRegistered (g : ChainReaction) (a b : String) : Prop :=
  g.hasTile a ∧ g.hasTile b

/-- Spec check 2: no self-link. -/
def checkDistinct (a b : String) : Prop :=
  a ≠ b

/-- Spec check 3: the canonical link is not already present. -/
def checkUnlinked (g : ChainReaction) (a b : String) : Prop :=
  normalize a b ∉ g.edges

/-- Spec check 4: both degrees are below `max_degree`. -/
def checkDegrees (g : ChainReaction) (a b : String) : Prop :=
  g.degree a < g.max_degree ∧ g.degree b < g.max_degree

/-- Spec check 5: the tag-sharing requirement of the difficulty — exactly
one shared real tag in Hard, at least one shared tag otherwise. -/
def checkTagRule (g : ChainReaction) (a b d : String) : Prop :=
  if d = "Hard" then (g.sharedTags a b true).card = 1
  else (g.sharedTags a b false).Nonempty

instance (g : ChainReaction) (a b : String) : Decidable (checkRegistered g a b) := by
  unfold checkRegistered; infer_instance

instance (a b : String) : Decidable (checkDistinct a b) := by
  unfold checkDistinct; infer_instance

instance (g : ChainReaction) (a b : String) : Decidable (checkUnlinked g a b) := by
  unfold checkUnlinked; infer_instance

instance (g : ChainReaction) (a b : String) : Decidable (checkDegrees g a b) := by
  unfold checkDegrees; infer_instance

instance (g : ChainReaction) (a b d : String) : Decidable (checkTagRule g a b d) := by
  unfold checkTagRule; infer_instance

/-- The spec's description of `canConnect`, written from its words: run the
five checks in the stated order, short-circuit on the first failure with
that check's human-readable reason, answer `(true, "")` only when all five
pass. -/
def canConnectSpec (g : ChainReaction) (a b d : String) : Bool × String :=
  if ¬ checkRegistered g a b then (false, "One or both tiles don't exist.")
  else if ¬ checkDistinct a b then (false, "Cannot connect a tile to itself.")
  else if ¬ checkUnlinked g a b then (false, "Those tiles are already connected.")
  else if ¬ checkDegrees g a b then (false, "A tile would exceed the maximum of 2 connections.")
  else if ¬ checkTagRule g a b d then
    (false, if d = "Hard" then "Hard mode: tiles must share exactly one real tag."
            else "Those tiles don't share a logical link (no common tag).")
  else (true, "")

/-- `can_connect` computes exactly the spec-side first-failing-check
function `canConnectSpec`. -/
theorem can_connect_eq_spec (g : ChainReaction) (a b d : String) :
    g.can_connect a b d = canConnectSpec g a b d := by
  have hspec : g.can_connect a b d = canConnectSpec g a b d := by
    by_cases h1 : g.hasTile a ∧ g.hasTile b
    · by_cases h2 : a = b
      · have L : g.can_connect a b d = (false, "Cannot connect a tile to itself.") := by
          unfold ChainReaction.can_connect
          rw [if_neg (by tauto), if_pos h2]
        have R : canConnectSpec g a b d = (false, "Cannot connect a tile to itself.") := by
          unfold canConnectSpec
          rw [if_neg (not_not.mpr (show checkRegistered g a b from h1)),
            if_pos (show ¬ checkDistinct a b from not_not.mpr h2)]
        rw [L, R]
      · by_cases h3 : normalize a b ∈ g.edges
        · have L : g.can_connect a b d = (false, "Those tiles are already connected.") := by
            unfold ChainReaction.can_connect
            rw [if_neg (by tauto), if_neg h2, if_pos h3]
          have R : canConnectSpec g a b d = (false, "Those tiles are already connected.") := by
            unfold canConnectSpec
            rw [if_neg (not_not.mpr (show checkRegistered g a b from h1)), if_neg (not_not.mpr (show checkDistinct a b from h2)),
              if_pos (show ¬ checkUnlinked g a b from not_not.mpr h3)]
          rw [L, R]
        · by_cases h4 : g.max_degree ≤ g.degree a ∨ g.max_degree ≤ g.degree b
          · have L : g.can_connect a b d =
                (false, "A tile would exceed the maximum of 2 connections.") := by
              unfold ChainReaction.can_connect
              rw [if_neg (by tauto), if_neg h2, if_neg h3, if_pos h4]
            have R : canConnectSpec g a b d =
                (false, "A tile would exceed the maximum of 2 connections.") := by
              unfold canConnectSpec
              rw [if_neg (not_not.mpr (show checkRegistered g a b from h1)), if_neg (not_not.mpr (show checkDistinct a b from h2)), if_neg (not_not.mpr (show checkUnlinked g a b from h3)),
                if_pos (show ¬ checkDegrees g a b by unfold checkDegrees; omega)]
            rw [L, R]
          · have h4' : checkDegrees g a b := by unfold checkDegrees; omega
            by_cases hd : d = "Hard"
            · have htag : checkTagRule g a b d ↔ (g.sharedTags a b true).card = 1 := by
                unfold checkTagRule; rw [if_pos hd]
              by_cases h5 : (g.sharedTags a b true).card = 1
              · have L : g.can_connect a b d = (true, "") := by
                  unfold ChainReaction.can_connect
                  rw [if_neg (by tauto), if_neg h2, if_neg h3, if_neg h4, if_pos hd,
                    decide_eq_true hd, if_neg (not_not.mpr h5)]
                have R : canConnectSpec g a b d = (true, "") := by
                  unfold canConnectSpec
                  rw [if_neg (not_not.mpr (show checkRegistered g a b from h1)), if_neg (not_not.mpr (show checkDistinct a b from h2)),
                    if_neg (not_not.mpr (show checkUnlinked g a b from h3)), if_neg (not_not.mpr h4'),
                    if_neg (not_not.mpr (htag.mpr h5))]
                rw [L, R]
              · have L : g.can_connect a b d =
                    (false, "Hard mode: tiles must share exactly one real tag.") := by
                  unfold ChainReaction.can_connect
                  rw [if_neg (by tauto), if_neg h2, if_neg h3, if_neg h4, if_pos hd,
                    decide_eq_true hd, if_pos h5]
                have R : canConnectSpec g a b d =
                    (false, "Hard mode: tiles must share exactly one real tag.") := by
                  unfold canConnectSpec
                  rw [if_neg (not_not.mpr (show checkRegistered g a b from h1)), if_neg (not_not.mpr (show checkDistinct a b from h2)),
                    if_neg (not_not.mpr (show checkUnlinked g a b from h3)), if_neg (not_not.mpr h4'),
                    if_pos (show ¬ checkTagRule g a b d from fun hc => h5 (htag.mp hc)),
                    if_pos hd]
                rw [L, R]
            · have htag : checkTagRule g a b d ↔ (g.sharedTags a b false).Nonempty := by
                unfold checkTagRule; rw [if_neg hd]
              by_cases h5 : g.sharedTags a b false = ∅
              · have L : g.can_connect a b d =
                    (false, "Those tiles don't share a logical link (no common tag).") := by
                  unfold ChainReaction.can_connect
                  rw [if_neg (by tauto), if_neg h2, if_neg h3, if_neg h4, if_neg hd,
                    decide_eq_false hd, if_pos h5]
                have R : canConnectSpec g a b d =
                    (false, "Those tiles don't share a logical link (no common tag).") := by
                  unfold canConnectSpec
                  rw [if_neg (not_not.mpr (show checkRegistered g a b from h1)), if_neg (not_not.mpr (show checkDistinct a b from h2)),
                    if_neg (not_not.mpr (show checkUnlinked g a b from h3)), if_neg (not_not.mpr h4'),
                    if_pos (show ¬ checkTagRule g a b d from fun hc =>
                      (Finset.not_nonempty_iff_eq_empty.mpr h5) (htag.mp hc)),
                    if_neg hd]
                rw [L, R]
              · have L : g.can_connect a b d = (true, "") := by
                  unfold ChainReaction.can_connect
                  rw [if_neg (by tauto), if_neg h2, if_neg h3, if_neg h4, if_neg hd,
                    decide_eq_false hd, if_neg h5]
                have R : canConnectSpec g a b d = (true, "") := by
                  unfold canConnectSpec
                  rw [if_neg (not_not.mpr (show checkRegistered g a b from h1)), if_neg (not_not.mpr (show checkDistinct a b from h2)),
                    if_neg (not_not.mpr (show checkUnlinked g a b from h3)), if_neg (not_not.mpr h4'),
                    if_neg (not_not.mpr (htag.mpr
                      (Finset.nonempty_iff_ne_empty.mpr h5)))]
                rw [L, R]
    · have L : g.can_connect a b d = (false, "One or both tiles don't exist.") := by
        unfold ChainReaction.can_connect
        rw [if_pos (by tauto)]
      have R : canConnectSpec g a b d = (false, "One or both tiles don't exist.") := by
        unfold canConnectSpec
        rw [if_pos (show ¬ checkRegistered g a b from h1)]
      rw [L, R]
  exact hspec

/-- `canConnectSpec` answers `(true, "")` exactly when the five checks all
hold. -/
theorem canConnectSpec_true_iff (g : ChainReaction) (a b d : String) :
    canConnectSpec g a b d = (true, "") ↔
      (checkRegistered g a b ∧ checkDistinct a b ∧ checkUnlinked g a b ∧
        checkDegrees g a b ∧ checkTagRule g a b d) := by
  unfold canConnectSpec
  by_cases h1 : checkRegistered g a b
  · rw [if_neg (not_not.mpr h1)]
    by_cases h2 : checkDistinct a b
    · rw [if_neg (not_not.mpr h2)]
      by_cases h3 : checkUnlinked g a b
      · rw [if_neg (not_not.mpr h3)]
        by_cases h4 : checkDegrees g a b
        · rw [if_neg (not_not.mpr h4)]
          by_cases h5 : checkTagRule g a b d
          · rw [if_neg (not_not.mpr h5)]
            exact iff_of_true rfl ⟨h1, h2, h3, h4, h5⟩
          · rw [if_pos h5]
            exact iff_of_false (by simp) (fun hc => h5 hc.2.2.2.2)
        · rw [if_pos h4]
          exact iff_of_false (by simp) (fun hc => h4 hc.2.2.2.1)
      · rw [if_pos h3]
        exact iff_of_false (by simp) (fun hc => h3 hc.2.2.1)
    · rw [if_pos h2]
      exact iff_of_false (by simp) (fun hc => h2 hc.2.1)
  · rw [if_pos h1]
    exact iff_of_false (by simp) (fun hc => h1 hc.1)

/-- A `canConnectSpec` verdict with a `true` flag is the full success pair. -/
theorem canConnectSpec_fst_true (g : ChainReaction) (a b d : String)
    (h : (canConnectSpec g a b d).1 = true) : canConnectSpec g a b d = (true, "") := by
  unfold canConnectSpec at h ⊢
  split_ifs at h ⊢ <;> simp_all

/-- The success flag of `can_connect` holds exactly when the five checks
hold. -/
theorem can_connect_ok_iff (g : ChainReaction) (a b d : String) :
    (g.can_connect a b d).1 = true ↔
      (checkRegistered g a b ∧ checkDistinct a b ∧ checkUnlinked g a b ∧
        checkDegrees g a b ∧ checkTagRule g a b d) := by
  rw [can_connect_eq_spec]
  constructor
  · intro h
    exact (canConnectSpec_true_iff g a b d).mp (canConnectSpec_fst_true g a b d h)
  · intro h
    rw [(canConnectSpec_true_iff g a b d).mpr h]

/-- Claim C1: `can_connect` evaluates the five precondition checks in the
fixed order (registry membership, self-link, duplicate link, degree bound,
tag rule), short-circuiting so the returned reason is the specific
human-readable reason of the first failing check, and it returns
`(true, "")` exactly when all five checks pass. -/
theorem c1_can_connect_check_order (g : ChainReaction) (a b d : String) :
    g.can_connect a b d = canConnectSpec g a b d ∧
      (g.can_connect a b d = (true, "") ↔
        (checkRegistered g a b ∧ checkDistinct a b ∧ checkUnlinked g a b ∧
          checkDegrees g a b ∧ checkTagRule g a b d)) := by
  refine ⟨can_connect_eq_spec g a b d, ?_⟩
  rw [can_connect_eq_spec]
  exact canConnectSpec_true_iff g a b d

/-! ### Claim C6: the difficulty-specific tag-sharing rule -/

/-- Claim C6: for registered, distinct, not-yet-connected tiles with both
degrees below `max_degree`, a Hard connect succeeds iff the tiles share
exactly one real (non-decoy-prefixed) tag, while an Easy or Medium connect
succeeds iff they share at least one tag, decoys included. -/
theorem c6_difficulty_tag_rule (g : ChainReaction) (a b : String)
    (ha : g.hasTile a) (hb : g.hasTile b) (hab : a ≠ b)
    (hnl : normalize a b ∉ g.edges)
    (hda : g.degree a < g.max_degree) (hdb : g.degree b < g.max_degree) :
    ((g.can_connect a b "Hard").1 = true ↔ (g.sharedTags a b true).card = 1) ∧
      ∀ d, (d = "Easy" ∨ d = "Medium") →
        ((g.can_connect a b d).1 = true ↔ (g.sharedTags a b false).Nonempty) := by
  constructor
  · rw [can_connect_ok_iff]
    constructor
    · rintro ⟨-, -, -, -, h5⟩
      unfold checkTagRule at h5
      rwa [if_pos rfl] at h5
    · intro h5
      exact ⟨⟨ha, hb⟩, hab, hnl, ⟨hda, hdb⟩, by unfold checkTagRule; rwa [if_pos rfl]⟩
  · intro d hd
    have hdH : ¬ d = "Hard" := by rcases hd with rfl | rfl <;> decide
    rw [can_connect_ok_iff]
    constructor
    · rintro ⟨-, -, -, -, h5⟩
      unfold checkTagRule at h5
      rwa [if_neg hdH] at h5
    · intro h5
      exact ⟨⟨ha, hb⟩, hab, hnl, ⟨hda, hdb⟩, by unfold checkTagRule; rwa [if_neg hdH]⟩

/-- The puzzle-1 graph as `build_puzzle_by_index` makes it in Easy mode
(fresh, no edges yet): used as the concrete instance for witnesses. -/
def graphP1 : ChainReaction := ChainReaction.make tiles1 sol1 2

/-- Witness for C6: the concrete puzzle-1 graph with tiles Dog and Bone
satisfies every hypothesis, and the theorem applies to it. -/
theorem c6_difficulty_tag_rule_witness :
    (graphP1.hasTile "Dog" ∧ graphP1.hasTile "Bone" ∧ "Dog" ≠ "Bone" ∧
        normalize "Dog" "Bone" ∉ graphP1.edges ∧
        graphP1.degree "Dog" < graphP1.max_degree ∧
        graphP1.degree "Bone" < graphP1.max_degree) ∧
      (((graphP1.can_connect "Dog" "Bone" "Hard").1 = true ↔
          (graphP1.sharedTags "Dog" "Bone" true).card = 1) ∧
        ∀ d, (d = "Easy" ∨ d = "Medium") →
          ((graphP1.can_connect "Dog" "Bone" d).1 = true ↔
            (graphP1.sharedTags "Dog" "Bone" false).Nonempty)) :=
  ⟨⟨by decide, by decide, by decide, by decide, by decide, by decide⟩,
    c6_difficulty_tag_rule graphP1 "Dog" "Bone" (by decide) (by decide) (by decide)
      (by decide) (by decide) (by decide)⟩

/-! ### Claim C9: `add_edge` then `remove_edge` round-trips -/

/-- A successful `add_edge` leaves a graph whose edges are the old ones plus
the canonical link, and the link was fresh. -/
theorem add_edge_ok_state (g : ChainReaction) (a b d : String)
    (h : (g.add_edge a b d).1.1 = true) :
    normalize a b ∉ g.edges ∧
      (g.add_edge a b d).2 = { g with edges := insert (normalize a b) g.edges } := by
  rcases hp : g.can_connect a b d with ⟨ok, msg⟩
  have hok : ok = true := by
    by_contra hne
    have hfalse : ok = false := by cases ok <;> simp_all
    unfold ChainReaction.add_edge at h
    rw [hp, hfalse] at h
    simp at h
  subst hok
  have hchecks := (can_connect_ok_iff g a b d).mp (by rw [hp])
  refine ⟨hchecks.2.2.1, ?_⟩
  unfold ChainReaction.add_edge
  rw [hp]
  simp

/-- Claim C9: if `add_edge` succeeds on a pair, then `remove_edge` on the
same pair — given in either order, since the two orders denote the same
canonical link — succeeds and restores the whole graph state (in
particular the edge set) exactly. -/
theorem c9_add_remove_round_trip (g : ChainReaction) (a b d : String)
    (h : (g.add_edge a b d).1.1 = true) :
    (((g.add_edge a b d).2.remove_edge a b).1.1 = true ∧
        ((g.add_edge a b d).2.remove_edge a b).2 = g) ∧
      (((g.add_edge a b d).2.remove_edge b a).1.1 = true ∧
        ((g.add_edge a b d).2.remove_edge b a).2 = g) := by
  obtain ⟨hfresh, hstate⟩ := add_edge_ok_state g a b d h
  have main : ∀ a' b', normalize a' b' = normalize a b →
      (((g.add_edge a b d).2.remove_edge a' b').1.1 = true ∧
        ((g.add_edge a b d).2.remove_edge a' b').2 = g) := by
    intro a' b' hnorm
    have hmem : normalize a' b' ∈ (g.add_edge a b d).2.edges := by
      rw [hstate, hnorm]
      exact Finset.mem_insert_self _ _
    unfold ChainReaction.remove_edge
    rw [if_neg (not_not.mpr hmem)]
    refine ⟨rfl, ?_⟩
    show { (g.add_edge a b d).2 with
      edges := (g.add_edge a b d).2.edges.erase (normalize a' b') } = g
    rw [hstate, hnorm]
    show { g with edges := (insert (normalize a b) g.edges).erase (normalize a b) } = g
    rw [Finset.erase_insert hfresh]
  exact ⟨main a b rfl, main b a (normalize_comm b a)⟩

/-- Witness for C9: adding Dog–Bone to the fresh puzzle-1 graph succeeds,
and the theorem applies to it. -/
theorem c9_add_remove_round_trip_witness :
    (graphP1.add_edge "Dog" "Bone" "Easy").1.1 = true ∧
      ((((graphP1.add_edge "Dog" "Bone" "Easy").2.remove_edge "Dog" "Bone").1.1 = true ∧
          ((graphP1.add_edge "Dog" "Bone" "Easy").2.remove_edge "Dog" "Bone").2 = graphP1) ∧
        (((graphP1.add_edge "Dog" "Bone" "Easy").2.remove_edge "Bone" "Dog").1.1 = true ∧
          ((graphP1.add_edge "Dog" "Bone" "Easy").2.remove_edge "Bone" "Dog").2 = graphP1)) :=
  ⟨by decide, c9_add_remove_round_trip graphP1 "Dog" "Bone" "Easy" (by decide)⟩

/-! ### Operation sequences (for the degree invariant and reachability) -/

/-- One engine call that can mutate the edge set, as the UI issues them:
`add_edge`, `remove_edge`, `auto_solve` (Auto-solve button) or clearing the
edges (Reset links button). -/
inductive Op where
  | add : String → String → String → Op
  | remove : String → String → Op
  | solve : Op
  | reset : Op

/-- Apply one call to the state.  A failed `add_edge`/`remove_edge` call
leaves the state unchanged (the source mutates only on the success path),
so applying every call and keeping only the successful calls' effects
coincide. -/
def applyOp (g : ChainReaction) : Op → ChainReaction
  | .add a b d => (g.add_edge a b d).2
  | .remove a b => (g.remove_edge a b).2
  | .solve => g.auto_solve
  | .reset => { g with edges := ∅ }

/-- A call sequence, applied left to right. -/
def applyOps (g : ChainReaction) (ops : List Op) : ChainReaction :=
  ops.foldl applyOp g

/-- The two ordinary play moves (`add_edge` / `remove_edge` calls). -/
def Op.isPlay : Op → Bool
  | .add _ _ _ => true
  | .remove _ _ => true
  | .solve => false
  | .reset => false

/-- A failed `add_edge` leaves the state unchanged. -/
theorem add_edge_not_ok_state (g : ChainReaction) (a b d : String)
    (h : (g.add_edge a b d).1.1 = false) : (g.add_edge a b d).2 = g := by
  rcases hp : g.can_connect a b d with ⟨ok, msg⟩
  unfold ChainReaction.add_edge at h ⊢
  rw [hp] at h ⊢
  cases ok
  · simp
  · simp at h

/-- `remove_edge` either erases the canonical link or leaves the state
unchanged; in both cases every field but `edges` is kept. -/
theorem remove_edge_state (g : ChainReaction) (a b : String) :
    (g.remove_edge a b).2 = g ∨
      (g.remove_edge a b).2 = { g with edges := g.edges.erase (normalize a b) } := by
  unfold ChainReaction.remove_edge
  split
  · exact Or.inl rfl
  · exact Or.inr rfl

/-- `add_edge` changes nothing but the edge set. -/
theorem add_edge_frame (g : ChainReaction) (a b d : String) :
    (g.add_edge a b d).2.tiles = g.tiles ∧
      (g.add_edge a b d).2.solution_edges = g.solution_edges ∧
      (g.add_edge a b d).2.max_degree = g.max_degree := by
  rcases hp : g.can_connect a b d with ⟨ok, msg⟩
  unfold ChainReaction.add_edge
  rw [hp]
  cases ok <;> exact ⟨rfl, rfl, rfl⟩

/-- No operation changes the registry, the reference solution or
`max_degree`. -/
theorem applyOp_frame (g : ChainReaction) (op : Op) :
    (applyOp g op).tiles = g.tiles ∧
      (applyOp g op).solution_edges = g.solution_edges ∧
      (applyOp g op).max_degree = g.max_degree := by
  cases op with
  | add a b d => exact add_edge_frame g a b d
  | remove a b =>
    have happ : applyOp g (Op.remove a b) = (g.remove_edge a b).2 := rfl
    rcases remove_edge_state g a b with h | h <;> rw [happ, h] <;> exact ⟨rfl, rfl, rfl⟩
  | solve => exact ⟨rfl, rfl, rfl⟩
  | reset => exact ⟨rfl, rfl, rfl⟩

/-- Degree after inserting a fresh edge: it grows by one exactly at the two
endpoints. -/
theorem degree_insert (g : ChainReaction) (e : String × String) (he : e ∉ g.edges)
    (t : String) :
    ({ g with edges := insert e g.edges } : ChainReaction).degree t =
      g.degree t + (if t = e.1 ∨ t = e.2 then 1 else 0) := by
  show (Finset.filter _ (insert e g.edges)).card = _
  rw [Finset.filter_insert]
  split
  · rw [Finset.card_insert_of_not_mem (fun hc => he (Finset.mem_filter.mp hc).1)]
    rfl
  · rw [Nat.add_zero]
    rfl

/-- Degree never grows when an edge is erased. -/
theorem degree_erase_le (g : ChainReaction) (e : String × String) (t : String) :
    ({ g with edges := g.edges.erase e } : ChainReaction).degree t ≤ g.degree t := by
  exact Finset.card_le_card
    (Finset.filter_subset_filter _ (Finset.erase_subset e g.edges))

/-- A successful `add_edge` had a successful `can_connect`. -/
theorem add_edge_ok_can_connect (g : ChainReaction) (a b d : String)
    (h : (g.add_edge a b d).1.1 = true) : (g.can_connect a b d).1 = true := by
  rcases hp : g.can_connect a b d with ⟨ok, msg⟩
  unfold ChainReaction.add_edge at h
  rw [hp] at h
  cases ok
  · simp at h
  · rfl

/-- One play move keeps every degree at or below `max_degree`. -/
theorem applyOp_degree_le (g : ChainReaction) (op : Op) (hop : op.isPlay = true)
    (hinv : ∀ t, g.degree t ≤ g.max_degree) :
    ∀ t, (applyOp g op).degree t ≤ g.max_degree := by
  intro t
  cases op with
  | add a b d =>
    show ((g.add_edge a b d).2).degree t ≤ g.max_degree
    rcases hok : (g.add_edge a b d).1.1 with _ | _
    · rw [add_edge_not_ok_state g a b d hok]
      exact hinv t
    · obtain ⟨hfresh, hstate⟩ := add_edge_ok_state g a b d hok
      have hchecks := (can_connect_ok_iff g a b d).mp (add_edge_ok_can_connect g a b d hok)
      obtain ⟨-, -, -, ⟨hda, hdb⟩, -⟩ := hchecks
      rw [hstate, degree_insert g _ hfresh t]
      by_cases hmem : t = (normalize a b).1 ∨ t = (normalize a b).2
      · rw [if_pos hmem]
        rcases (normalize_mem_iff a b t).mp hmem with rfl | rfl
        · omega
        · omega
      · rw [if_neg hmem, Nat.add_zero]
        exact hinv t
  | remove a b =>
    show ((g.remove_edge a b).2).degree t ≤ g.max_degree
    rcases remove_edge_state g a b with h | h
    · rw [h]; exact hinv t
    · rw [h]
      exact Nat.le_trans (degree_erase_le g _ t) (hinv t)
  | solve => simp [Op.isPlay] at hop
  | reset => simp [Op.isPlay] at hop

/-- A play-only sequence keeps every degree at or below the (unchanged)
`max_degree`. -/
theorem applyOps_degree_le (ops : List Op) :
    ∀ g : ChainReaction, (∀ op ∈ ops, op.isPlay = true) →
      (∀ t, g.degree t ≤ g.max_degree) →
      ∀ t, (applyOps g ops).degree t ≤ g.max_degree := by
  induction ops with
  | nil => intro g _ hinv t; exact hinv t
  | cons op ops ih =>
    intro g hplay hinv t
    have hmax := (applyOp_frame g op).2.2
    have hstep := applyOp_degree_le g op (hplay op (by simp)) hinv
    have := ih (applyOp g op) (fun o ho => hplay o (by simp [ho])) (by rw [hmax]; exact hstep) t
    show (applyOps (applyOp g op) ops).degree t ≤ g.max_degree
    rw [← hmax]
    exact this

/-- Claim C2: starting from any freshly constructed graph (empty edge set),
after any sequence of `add_edge` and `remove_edge` calls (only successful
calls change the state), every tile's degree is at most `max_degree`. -/
theorem c2_degree_invariant (g0 : ChainReaction) (ops : List Op)
    (h0 : g0.edges = ∅) (hplay : ∀ op ∈ ops, op.isPlay = true) :
    ∀ t, (applyOps g0 ops).degree t ≤ g0.max_degree := by
  refine applyOps_degree_le ops g0 hplay ?_
  intro t
  show (Finset.filter _ g0.edges).card ≤ _
  rw [h0]
  simp

/-- Witness for C2: the fresh puzzle-1 graph run through a small concrete
play sequence (an `add_edge`, a failed duplicate `add_edge`, a
`remove_edge`) keeps all degrees within `max_degree`. -/
theorem c2_degree_invariant_witness :
    graphP1.edges = ∅ ∧
      (∀ op ∈ [Op.add "Dog" "Bone" "Easy", Op.add "Dog" "Bone" "Easy",
        Op.remove "Bone" "Dog"], op.isPlay = true) ∧
      ∀ t, (applyOps graphP1 [Op.add "Dog" "Bone" "Easy", Op.add "Dog" "Bone" "Easy",
        Op.remove "Bone" "Dog"]).degree t ≤ graphP1.max_degree :=
  ⟨by decide, by decide,
    c2_degree_invariant graphP1 _ (by decide) (by decide)⟩

/-! ### Claim C10: `degree` of an unregistered name in program states -/

/-- Every current edge joins registered tiles. -/
def edgesOverRegistry (g : ChainReaction) : Prop :=
  ∀ e ∈ g.edges, g.hasTile e.1 ∧ g.hasTile e.2

/-- Every reference-solution edge joins registered tiles. -/
def solutionOverRegistry (g : ChainReaction) : Prop :=
  ∀ e ∈ g.solution_edges, g.hasTile e.1 ∧ g.hasTile e.2

/-- Map-name lemma: decoy injection renames nothing. -/
theorem addDecoysGo_map_name (n : Nat) (r : Nat → Nat) :
    ∀ (base : Nat) (ts : List Tile),
      (addDecoysGo n r base ts).map Tile.name = ts.map Tile.name
  | _, [] => rfl
  | base, t :: ts => by
    simp only [addDecoysGo, List.map_cons, addDecoysTile]
    rw [addDecoysGo_map_name n r (base + n) ts]

/-- What `build_puzzle_by_index` constructs: empty edges, the normalized
base solution, `max_degree = 2`, and a registry with exactly the base
puzzle's tile names. -/
theorem build_puzzle_fields (idx : Nat) (d : String) (r : Nat → Nat) :
    (build_puzzle_by_index idx d r).edges = ∅ ∧
      (build_puzzle_by_index idx d r).solution_edges =
        (PUZZLES.get ⟨idx % PUZZLES.length, Nat.mod_lt _ (by decide)⟩).2.image
          (fun e => normalize e.1 e.2) ∧
      (build_puzzle_by_index idx d r).tiles.map Tile.name =
        (PUZZLES.get ⟨idx % PUZZLES.length, Nat.mod_lt _ (by decide)⟩).1.map Tile.name ∧
      (build_puzzle_by_index idx d r).max_degree = 2 := by
  unfold build_puzzle_by_index
  refine ⟨rfl, rfl, ?_, rfl⟩
  dsimp only
  split
  · exact addDecoysGo_map_name _ r 0 _
  · rfl

/-- Every handcrafted solution's endpoints are names of that puzzle's
registry (checked by evaluation over the catalog). -/
theorem puzzles_solutions_over : ∀ p ∈ PUZZLES, ∀ e ∈ p.2,
    e.1 ∈ p.1.map Tile.name ∧ e.2 ∈ p.1.map Tile.name := by decide

/-- A freshly built puzzle's reference solution lies over its registry. -/
theorem build_solution_over (idx : Nat) (d : String) (r : Nat → Nat) :
    solutionOverRegistry (build_puzzle_by_index idx d r) := by
  obtain ⟨-, hsol, hnames, -⟩ := build_puzzle_fields idx d r
  intro e he
  rw [hsol] at he
  rcases Finset.mem_image.mp he with ⟨e0, he0, rfl⟩
  have hbase := puzzles_solutions_over _ (PUZZLES.get_mem _ _) e0 he0
  unfold ChainReaction.hasTile
  rw [hnames]
  constructor
  · rcases normalize_fst_or e0.1 e0.2 with h | h <;> rw [h]
    · exact hbase.1
    · exact hbase.2
  · rcases normalize_snd_or e0.1 e0.2 with h | h <;> rw [h]
    · exact hbase.1
    · exact hbase.2

/-- One operation preserves "solution edges lie over the registry". -/
theorem solutionOver_applyOp (g : ChainReaction) (op : Op)
    (hsol : solutionOverRegistry g) : solutionOverRegistry (applyOp g op) := by
  have hf := applyOp_frame g op
  intro e he
  rw [hf.2.1] at he
  have h := hsol e he
  unfold ChainReaction.hasTile at h ⊢
  rw [hf.1]
  exact h

/-- One operation preserves "current edges lie over the registry" (given the
solution does, for the Auto-solve case). -/
theorem edgesOver_applyOp (g : ChainReaction) (op : Op)
    (hsol : solutionOverRegistry g) (hedg : edgesOverRegistry g) :
    edgesOverRegistry (applyOp g op) := by
  have hf := applyOp_frame g op
  intro e he
  suffices h : g.hasTile e.1 ∧ g.hasTile e.2 by
    unfold ChainReaction.hasTile at h ⊢
    rw [hf.1]
    exact h
  cases op with
  | add a b d =>
    rcases hok : (g.add_edge a b d).1.1 with _ | _
    · rw [show applyOp g (Op.add a b d) = (g.add_edge a b d).2 from rfl,
        add_edge_not_ok_state g a b d hok] at he
      exact hedg e he
    · obtain ⟨hfresh, hstate⟩ := add_edge_ok_state g a b d hok
      have hreg := ((can_connect_ok_iff g a b d).mp (add_edge_ok_can_connect g a b d hok)).1
      rw [show applyOp g (Op.add a b d) = (g.add_edge a b d).2 from rfl, hstate] at he
      rcases Finset.mem_insert.mp he with rfl | hmem
      · constructor
        · rcases normalize_fst_or a b with h | h <;> rw [h]
          · exact hreg.1
          · exact hreg.2
        · rcases normalize_snd_or a b with h | h <;> rw [h]
          · exact hreg.1
          · exact hreg.2
      · exact hedg e hmem
  | remove a b =>
    rcases remove_edge_state g a b with h | h <;>
      rw [show applyOp g (Op.remove a b) = (g.remove_edge a b).2 from rfl, h] at he
    · exact hedg e he
    · exact hedg e (Finset.mem_of_mem_erase he)
  | solve => exact hsol e he
  | reset => exact absurd he (Finset.not_mem_empty e)

/-- Both over-registry invariants hold after any call sequence. -/
theorem over_applyOps (ops : List Op) : ∀ g : ChainReaction,
    solutionOverRegistry g → edgesOverRegistry g →
      solutionOverRegistry (applyOps g ops) ∧ edgesOverRegistry (applyOps g ops) := by
  induction ops with
  | nil => exact fun g hs he => ⟨hs, he⟩
  | cons op ops ih =>
    intro g hs he
    exact ih (applyOp g op)
      (solutionOver_applyOp g op hs) (edgesOver_applyOp g op hs he)

/-- Claim C10: in every program state — a graph built by
`build_puzzle_by_index` (any index, difficulty, seed stream) followed by any
sequence of engine calls — `degree` of a name that is not in the registry
returns 0 (it counts incident edges, and an unregistered name is incident
to none); no NotFound-style failure exists on this path. -/
theorem c10_degree_unregistered_zero (idx : Nat) (d : String) (r : Nat → Nat)
    (ops : List Op) (x : String)
    (hx : ¬ (applyOps (build_puzzle_by_index idx d r) ops).hasTile x) :
    (applyOps (build_puzzle_by_index idx d r) ops).degree x = 0 := by
  have hsol0 := build_solution_over idx d r
  have hedg0 : edgesOverRegistry (build_puzzle_by_index idx d r) := by
    intro e he
    rw [(build_puzzle_fields idx d r).1] at he
    exact absurd he (Finset.not_mem_empty e)
  have hinv := (over_applyOps ops _ hsol0 hedg0).2
  show (Finset.filter _ _).card = 0
  rw [Finset.card_eq_zero, Finset.filter_eq_empty_iff]
  intro e he hc
  rcases hc with rfl | rfl
  · exact hx (hinv e he).1
  · exact hx (hinv e he).2

/-- Witness for C10: the name Ghost is not registered in the freshly built
puzzle 1, and its degree there is 0. -/
theorem c10_degree_unregistered_zero_witness :
    ¬ (applyOps (build_puzzle_by_index 0 "Easy" (fun _ => 0)) []).hasTile "Ghost" ∧
      (applyOps (build_puzzle_by_index 0 "Easy" (fun _ => 0)) []).degree "Ghost" = 0 :=
  ⟨by decide, c10_degree_unregistered_zero 0 "Easy" (fun _ => 0) [] "Ghost" (by decide)⟩

/-! ### Claim C8: behaviour of the operations on unregistered names -/

/-- Counterexample to C8 as stated: `share_tag` called with the
unregistered name Ghost does not return a normal value — `self.tiles["Ghost"]`
raises `KeyError` to the caller, modelled as `none`. -/
theorem c8_share_tag_raises_counterexample :
    graphP1.share_tag "Ghost" "Bone" false = none := by decide

/-- A name outside the registry has no dict entry. -/
theorem lookup_eq_none_of_not_hasTile (g : ChainReaction) (n : String)
    (h : ¬ g.hasTile n) : g.lookup n = none := by
  rcases ho : g.lookup n with _ | t
  · rfl
  · exact absurd ((ChainReaction.lookup_isSome_iff_hasTile g n).mp (by rw [ho]; rfl)) h

/-- Claim C8 (amended): with a name absent from the registry, `can_connect`
and `add_edge` return the normal `(false, "One or both tiles don't
exist.")` result and leave the state unchanged, and `remove_edge` returns
its normal no-such-link failure (`degree` always returns a plain count, and
`is_complete_chain`/`give_hint` take no tile name) — but `share_tag` is the
exception: it raises `KeyError` (modelled as `none`) instead of returning a
value. -/
theorem c8_unknown_name_behaviour (g : ChainReaction) (a b d : String) (ro : Bool)
    (hab : ¬ g.hasTile a ∨ ¬ g.hasTile b) :
    g.can_connect a b d = (false, "One or both tiles don't exist.") ∧
      (g.add_edge a b d).1 = (false, "One or both tiles don't exist.") ∧
      (g.add_edge a b d).2 = g ∧
      (normalize a b ∉ g.edges →
        g.remove_edge a b = ((false, "That link doesn't exist."), g)) ∧
      g.share_tag a b ro = none := by
  have hcc : g.can_connect a b d = (false, "One or both tiles don't exist.") := by
    unfold ChainReaction.can_connect
    rw [if_pos hab]
  refine ⟨hcc, ?_, ?_, ?_, ?_⟩
  · unfold ChainReaction.add_edge
    rw [hcc]
    rfl
  · unfold ChainReaction.add_edge
    rw [hcc]
    rfl
  · intro hnl
    unfold ChainReaction.remove_edge
    rw [if_pos hnl]
  · unfold ChainReaction.share_tag
    rcases hab with ha | hb
    · rw [lookup_eq_none_of_not_hasTile g a ha]
      rfl
    · rw [lookup_eq_none_of_not_hasTile g b hb]
      rcases g.lookup a with _ | t <;> rfl

/-- Witness for C8 (amended): Ghost is unregistered in the puzzle-1 graph;
the operations answer normally except `share_tag`, which yields `none`. -/
theorem c8_unknown_name_behaviour_witness :
    (¬ graphP1.hasTile "Ghost" ∨ ¬ graphP1.hasTile "Dog") ∧
      normalize "Ghost" "Dog" ∉ graphP1.edges ∧
      graphP1.can_connect "Ghost" "Dog" "Easy" = (false, "One or both tiles don't exist.") ∧
      (graphP1.add_edge "Ghost" "Dog" "Easy").1 = (false, "One or both tiles don't exist.") ∧
      (graphP1.add_edge "Ghost" "Dog" "Easy").2 = graphP1 ∧
      graphP1.remove_edge "Ghost" "Dog" = ((false, "That link doesn't exist."), graphP1) ∧
      graphP1.share_tag "Ghost" "Dog" false = none := by
  have h := c8_unknown_name_behaviour graphP1 "Ghost" "Dog" "Easy" false
    (Or.inl (by decide))
  exact ⟨Or.inl (by decide), by decide, h.1, h.2.1, h.2.2.1, h.2.2.2.1 (by decide), h.2.2.2.2⟩

/-! ### Claim C3: reachability of the traversal ("disconnected") branch -/

/-- A five-tile registry: a two-tile path A–B plus a disjoint triangle
C–D–E.  Tags are irrelevant to `is_complete_chain`. -/
def tilesC3 : List Tile :=
  [⟨"A", ∅⟩, ⟨"B", ∅⟩, ⟨"C", ∅⟩, ⟨"D", ∅⟩, ⟨"E", ∅⟩]

/-- The counterexample graph state: 4 edges over 5 registered tiles — a
path of two plus a 3-cycle, all links canonical. -/
def gC3 : ChainReaction :=
  ⟨tilesC3, {("A", "B"), ("C", "D"), ("C", "E"), ("D", "E")}, ∅, 2⟩

/-- Counterexample to C3 as stated: `gC3` passes steps 1–4 of
`is_complete_chain` (edge count 4 = 5 − 1, no isolated tile, exactly two
endpoints and three interior tiles), yet the step-5 traversal fails and the
"disconnected" branch answers. -/
theorem c3_checks_pass_but_disconnected_counterexample :
    gC3.shapeChecks = true ∧
      gC3.is_complete_chain = (false, "All tiles must be connected.") := by decide

/-- Claim C3 (amended): steps 1–4 of `is_complete_chain` do not make the
step-5 traversal visit all tiles — the "disconnected" branch is reachable:
a disjoint path-plus-cycle state passes all four shape checks while the
traversal from the first endpoint visits strictly fewer tiles than the
registry holds. -/
theorem c3_traversal_branch_reachable :
    gC3.shapeChecks = true ∧ gC3.dfsVisited.card < gC3.keyList.length := by decide

/-! ### Claim C5: `auto_solve` then `is_complete_chain` on every catalog build -/

/-- `is_complete_chain` reads only the registry's (deduplicated) name list
and the edge set: two states agreeing there agree on the check. -/
theorem is_complete_chain_congr (g g' : ChainReaction)
    (hn : g.tiles.map Tile.name = g'.tiles.map Tile.name)
    (he : g.edges = g'.edges) :
    g.is_complete_chain = g'.is_complete_chain := by
  have hk : g.keyList = g'.keyList := by
    unfold ChainReaction.keyList
    rw [hn]
  unfold ChainReaction.is_complete_chain ChainReaction.dfsVisited ChainReaction.onesList
    ChainReaction.zerosList ChainReaction.twosList ChainReaction.adjDeg
  rw [hk, he]

/-- Claim C5: for every catalog index, difficulty and seed stream,
`auto_solve` (which replaces the edge set wholesale with the reference
solution) followed by `is_complete_chain` answers `(true, "Chain
complete!")`. -/
theorem c5_auto_solve_complete (idx : Nat) (d : String) (r : Nat → Nat) :
    ((build_puzzle_by_index idx d r).auto_solve).is_complete_chain =
      (true, "Chain complete!") := by
  obtain ⟨-, hsol, hnames, -⟩ := build_puzzle_fields idx d r
  set p := PUZZLES.get ⟨idx % PUZZLES.length, Nat.mod_lt _ (by decide)⟩ with hp
  have hcongr := is_complete_chain_congr
    ((build_puzzle_by_index idx d r).auto_solve)
    ((ChainReaction.make p.1 p.2 2).auto_solve)
    (by
      show (build_puzzle_by_index idx d r).tiles.map Tile.name = p.1.map Tile.name
      exact hnames)
    (by
      show (build_puzzle_by_index idx d r).solution_edges =
        (ChainReaction.make p.1 p.2 2).solution_edges
      exact hsol)
  rw [hcongr]
  have hmem : p ∈ PUZZLES := by
    rw [hp]
    exact List.get_mem PUZZLES _ _
  clear_value p
  have hlit : PUZZLES = [(tiles1, sol1), (tiles2, sol2), (tiles3, sol3), (tiles4, sol4)] := rfl
  rw [hlit] at hmem
  simp only [List.mem_cons, List.not_mem_nil, or_false] at hmem
  rcases hmem with rfl | rfl | rfl | rfl <;> decide

/-! ### Claim C4: the handcrafted reference solutions are valid chains -/

/-- Run `add_edge` over a list of proposed links, recording whether every
single call succeeded. -/
def linkAll (g : ChainReaction) (es : List (String × String)) (d : String) :
    ChainReaction × Bool :=
  es.foldl (fun acc e =>
    ((acc.1.add_edge e.1 e.2 d).2, acc.2 && (acc.1.add_edge e.1 e.2 d).1.1)) (g, true)

/-- Puzzle 1's reference links in source order. -/
def solList1 : List (String × String) :=
  [("Dog", "Bone"), ("Bone", "Calcium"), ("Calcium", "Milk"),
   ("Milk", "Cat"), ("Cat", "Fur"), ("Fur", "Coat"), ("Coat", "Winter")]

/-- Puzzle 2's reference links in source order. -/
def solList2 : List (String × String) :=
  [("Sun", "Light"), ("Light", "Plant"), ("Plant", "Oxygen"),
   ("Oxygen", "Human"), ("Human", "Exercise"), ("Exercise", "Health"), ("Health", "Longevity")]

/-- Puzzle 3's reference links in source order. -/
def solList3 : List (String × String) :=
  [("Wheat", "Flour"), ("Flour", "Dough"), ("Dough", "Bread"),
   ("Bread", "Sandwich"), ("Sandwich", "Picnic"), ("Picnic", "Sunset"), ("Sunset", "Stars")]

/-- Puzzle 4's reference links in source order. -/
def solList4 : List (String × String) :=
  [("Passport", "Airport"), ("Airport", "Plane"), ("Plane", "Clouds"),
   ("Clouds", "Skyline"), ("Skyline", "Hotel"), ("Hotel", "Breakfast"), ("Breakfast", "Coffee")]

/-- Which reference links of a puzzle's solution join tiles with no shared
tag at all (the set the game's own Easy rule rejects). -/
def unsharedLinks (ts : List Tile) (sol : Finset (String × String)) :
    Finset (String × String) :=
  sol.filter (fun e => (ChainReaction.make ts sol 2).sharedTags e.1 e.2 false = ∅)

/-- Claim C4, evaluated on the catalog: puzzles 1, 3 and 4 satisfy it — every
reference link shares a tag and the whole reference solution can be built
link by link via `add_edge` in Easy mode — but puzzle 2 does not: its
reference links Plant–Oxygen and Oxygen–Human join tiles with no common
tag, `can_connect` rejects both, and building its reference solution via
`add_edge` fails. -/
theorem c4_catalog_tag_sharing_eval :
    unsharedLinks tiles1 sol1 = ∅ ∧
      unsharedLinks tiles3 sol3 = ∅ ∧
      unsharedLinks tiles4 sol4 = ∅ ∧
      (linkAll (ChainReaction.make tiles1 sol1 2) solList1 "Easy").2 = true ∧
      (linkAll (ChainReaction.make tiles1 sol1 2) solList1 "Easy").1.edges =
        (ChainReaction.make tiles1 sol1 2).solution_edges ∧
      (linkAll (ChainReaction.make tiles3 sol3 2) solList3 "Easy").2 = true ∧
      (linkAll (ChainReaction.make tiles3 sol3 2) solList3 "Easy").1.edges =
        (ChainReaction.make tiles3 sol3 2).solution_edges ∧
      (linkAll (ChainReaction.make tiles4 sol4 2) solList4 "Easy").2 = true ∧
      (linkAll (ChainReaction.make tiles4 sol4 2) solList4 "Easy").1.edges =
        (ChainReaction.make tiles4 sol4 2).solution_edges ∧
      unsharedLinks tiles2 sol2 = {("Oxygen", "Human"), ("Plant", "Oxygen")} ∧
      (ChainReaction.make tiles2 sol2 2).can_connect "Plant" "Oxygen" "Easy" =
        (false, "Those tiles don't share a logical link (no common tag).") ∧
      (ChainReaction.make tiles2 sol2 2).can_connect "Oxygen" "Human" "Easy" =
        (false, "Those tiles don't share a logical link (no common tag).") ∧
      (linkAll (ChainReaction.make tiles2 sol2 2) solList2 "Easy").2 = false := by decide

/-! ### Claim C7: decoy injection

Supporting facts about decimal rendering (`Nat.repr`), needed because a
decoy tag is the string "decoy:" ++ name ++ ":" ++ decimal digits: the
digit block contains no colon, and rendering is injective. -/

/-- Every character `Nat.toDigitsCore` emits beyond the seed list is a
`digitChar` of a value below the base (base 10 here). -/
theorem toDigitsCore_mem : ∀ (f n : Nat) (ds : List Char) (c : Char),
    c ∈ Nat.toDigitsCore 10 f n ds → c ∈ ds ∨ ∃ m, m < 10 ∧ c = Nat.digitChar m
  | 0, _, _, _ => fun hc => Or.inl hc
  | f + 1, n, ds, c => by
    intro hc
    unfold Nat.toDigitsCore at hc
    by_cases h0 : n / 10 = 0
    · rw [if_pos h0] at hc
      rcases List.mem_cons.mp hc with rfl | hmem
      · exact Or.inr ⟨n % 10, Nat.mod_lt _ (by omega), rfl⟩
      · exact Or.inl hmem
    · rw [if_neg h0] at hc
      rcases toDigitsCore_mem f (n / 10) _ c hc with hmem | hd
      · rcases List.mem_cons.mp hmem with rfl | hmem'
        · exact Or.inr ⟨n % 10, Nat.mod_lt _ (by omega), rfl⟩
        · exact Or.inl hmem'
      · exact Or.inr hd

/-- No decimal digit character is a colon. -/
theorem digitChar_ne_colon : ∀ m, m < 10 → Nat.digitChar m ≠ ':' := by decide

/-- The decimal rendering of a natural number contains no colon. -/
theorem repr_no_colon (v : Nat) : ':' ∉ (Nat.repr v).data := by
  intro hc
  have hdata : (Nat.repr v).data = Nat.toDigitsCore 10 (v + 1) v [] := rfl
  rw [hdata] at hc
  rcases toDigitsCore_mem (v + 1) v [] ':' hc with h | ⟨m, hm, hchar⟩
  · exact absurd h (List.not_mem_nil _)
  · exact digitChar_ne_colon m hm hchar.symm

/-- Reading a digit string back: the digit-value accumulator. -/
def digitStep (acc : Nat) (c : Char) : Nat :=
  acc * 10 + (c.toNat - 48)

/-- `digitChar` really renders the digit: folding one rendered digit onto an
accumulator multiplies by ten and adds it. -/
theorem digitStep_digitChar : ∀ m, m < 10 → ∀ acc,
    digitStep acc (Nat.digitChar m) = acc * 10 + m := by
  have h : ∀ m, m < 10 → (Nat.digitChar m).toNat - 48 = m := by decide
  intro m hm acc
  unfold digitStep
  rw [h m hm]

/-- Folding the accumulator over a `toDigitsCore` rendering recovers the
rendered number before continuing with the seed list. -/
theorem toDigitsCore_foldl : ∀ (f n : Nat) (ds : List Char), n < f →
    List.foldl digitStep 0 (Nat.toDigitsCore 10 f n ds) = List.foldl digitStep n ds
  | 0, _, _ => fun hf => absurd hf (Nat.not_lt_zero _)
  | f + 1, n, ds => by
    intro hf
    unfold Nat.toDigitsCore
    by_cases h0 : n / 10 = 0
    · rw [if_pos h0]
      show List.foldl digitStep (digitStep 0 (Nat.digitChar (n % 10))) ds = _
      rw [digitStep_digitChar (n % 10) (Nat.mod_lt _ (by omega)) 0]
      have : 0 * 10 + n % 10 = n := by omega
      rw [this]
    · rw [if_neg h0]
      have hlt : n / 10 < f := by omega
      rw [toDigitsCore_foldl f (n / 10) _ hlt]
      show List.foldl digitStep (digitStep (n / 10) (Nat.digitChar (n % 10))) ds = _
      rw [digitStep_digitChar (n % 10) (Nat.mod_lt _ (by omega)) (n / 10)]
      have : n / 10 * 10 + n % 10 = n := by omega
      rw [this]

/-- Reading the decimal rendering back yields the number. -/
theorem repr_foldl (v : Nat) : List.foldl digitStep 0 (Nat.repr v).data = v := by
  have hdata : (Nat.repr v).data = Nat.toDigitsCore 10 (v + 1) v [] := rfl
  rw [hdata, toDigitsCore_foldl (v + 1) v [] (Nat.lt_succ_self v)]
  rfl

/-- Decimal rendering is injective. -/
theorem repr_injective {v w : Nat} (h : Nat.repr v = Nat.repr w) : v = w := by
  rw [← repr_foldl v, ← repr_foldl w, h]

/-- Cancelling around the last colon: two char lists that agree and both
end with a colon-free block after a colon agree blockwise. -/
theorem append_colon_cancel : ∀ (xd yd dv dw : List Char),
    xd ++ ':' :: dv = yd ++ ':' :: dw → ':' ∉ dv → ':' ∉ dw →
      xd = yd ∧ dv = dw
  | [], [], dv, dw => fun h _ _ => ⟨rfl, by simpa using h⟩
  | [], y :: yd, dv, dw => fun h hdv _ => by
    simp only [List.nil_append, List.cons_append, List.cons.injEq] at h
    exact absurd (h.2 ▸ List.mem_append_right yd (List.mem_cons_self ':' dw)) hdv
  | x :: xd, [], dv, dw => fun h _ hdw => by
    simp only [List.nil_append, List.cons_append, List.cons.injEq] at h
    exact absurd (h.2.symm ▸ List.mem_append_right xd (List.mem_cons_self ':' dv)) hdw
  | x :: xd, y :: yd, dv, dw => fun h hdv hdw => by
    simp only [List.cons_append, List.cons.injEq] at h
    obtain ⟨rfl, h⟩ := h
    obtain ⟨h1, h2⟩ := append_colon_cancel xd yd dv dw h hdv hdw
    exact ⟨by rw [h1], h2⟩

/-- The decoy tag string determines the tile name and the drawn value. -/
theorem decoyTag_inj {x y : String} {v w : Nat}
    (h : decoyTag x v = decoyTag y w) : x = y ∧ v = w := by
  have hdata : ("decoy:" ++ x ++ ":" ++ Nat.repr v).data =
      ("decoy:" ++ y ++ ":" ++ Nat.repr w).data := congrArg String.data h
  rw [String.data_append, String.data_append, String.data_append,
    String.data_append, String.data_append, String.data_append] at hdata
  have hdata' : "decoy:".data ++ (x.data ++ ':' :: (Nat.repr v).data) =
      "decoy:".data ++ (y.data ++ ':' :: (Nat.repr w).data) := by
    simpa using hdata
  have hmid := List.append_cancel_left hdata'
  obtain ⟨hx, hv⟩ :=
    append_colon_cancel x.data y.data (Nat.repr v).data (Nat.repr w).data hmid
      (repr_no_colon v) (repr_no_colon w)
  refine ⟨?_, repr_injective ?_⟩
  · cases x; cases y; exact congrArg String.mk hx
  · show Nat.repr v = Nat.repr w
    have hv' : (Nat.repr v).data = (Nat.repr w).data := hv
    rcases hrv : Nat.repr v with ⟨dv⟩
    rcases hrw : Nat.repr w with ⟨dw⟩
    rw [hrv, hrw] at hv'
    exact congrArg String.mk hv'

/-- A list is a prefix (by `isPrefixOf`) of itself followed by anything. -/
theorem isPrefixOf_append_self : ∀ (l m : List Char), l.isPrefixOf (l ++ m) = true
  | [], _ => by simp
  | a :: l, m => by
    simp [List.cons_append, List.isPrefixOf_cons₂, isPrefixOf_append_self l m]

/-- Injected decoy tags are never real: they carry the decoy marker. -/
theorem is_real_decoyTag (x : String) (v : Nat) :
    is_real_tag (decoyTag x v) = false := by
  unfold is_real_tag
  rw [Bool.not_eq_false']
  have hdata : (decoyTag x v).data = "decoy:".data ++ (x ++ ":" ++ Nat.repr v).data := by
    unfold decoyTag
    rw [String.data_append, String.data_append, String.data_append]
    simp
  rw [hdata]
  exact isPrefixOf_append_self _ _

/-- Membership in a tile's injected decoy set. -/
theorem mem_decoySet {x : String} {n : Nat} {r : Nat → Nat} {base : Nat} {tag : String} :
    tag ∈ decoySet x n r base ↔ ∃ j, j < n ∧ tag = decoyTag x (r (base + j)) := by
  unfold decoySet
  rw [List.mem_toFinset, List.mem_map]
  constructor
  · rintro ⟨j, hj, rfl⟩
    exact ⟨j, List.mem_range.mp hj, rfl⟩
  · rintro ⟨j, hj, rfl⟩
    exact ⟨j, List.mem_range.mpr hj, rfl⟩

/-- Injected decoy tags all carry the marker, so none is real. -/
theorem decoySet_not_real {x : String} {n : Nat} {r : Nat → Nat} {base : Nat} :
    ∀ tag ∈ decoySet x n r base, is_real_tag tag = false := by
  intro tag htag
  rcases mem_decoySet.mp htag with ⟨j, -, rfl⟩
  exact is_real_decoyTag _ _

/-- Decoy sets of tiles with different names never meet, whatever the
draws. -/
theorem decoySet_disjoint {x y : String} {n m : Nat} {r r' : Nat → Nat} {b b' : Nat}
    (hxy : x ≠ y) : decoySet x n r b ∩ decoySet y m r' b' = ∅ := by
  rw [Finset.eq_empty_iff_forall_not_mem]
  intro tag htag
  rw [Finset.mem_inter] at htag
  rcases mem_decoySet.mp htag.1 with ⟨j, -, rfl⟩
  rcases mem_decoySet.mp htag.2 with ⟨k, -, heq⟩
  exact hxy (decoyTag_inj heq).1

/-- A set of real tags never meets a decoy set. -/
theorem real_inter_decoySet_eq_empty {S : Finset String} {x : String} {n : Nat}
    {r : Nat → Nat} {base : Nat} (hS : ∀ tag ∈ S, is_real_tag tag = true) :
    S ∩ decoySet x n r base = ∅ := by
  rw [Finset.eq_empty_iff_forall_not_mem]
  intro tag htag
  rw [Finset.mem_inter] at htag
  have h1 := hS tag htag.1
  have h2 := decoySet_not_real tag htag.2
  rw [h1] at h2
  exact absurd h2 (by simp)

/-- With one draw, the decoy set is the single rendered tag. -/
theorem decoySet_one (x : String) (r : Nat → Nat) (base : Nat) :
    decoySet x 1 r base = {decoyTag x (r base)} := rfl

/-- With two draws, the decoy set is the two rendered tags. -/
theorem decoySet_two (x : String) (r : Nat → Nat) (base : Nat) :
    decoySet x 2 r base = insert (decoyTag x (r base)) {decoyTag x (r (base + 1))} := by
  have h : (List.range 2).map (fun j => decoyTag x (r (base + j))) =
      [decoyTag x (r (base + 0)), decoyTag x (r (base + 1))] := rfl
  unfold decoySet
  rw [h]
  simp [List.toFinset_cons]

/-- Two differing draws yield two distinct decoy tags. -/
theorem decoySet_two_card (x : String) (r : Nat → Nat) (base : Nat)
    (hne : r base ≠ r (base + 1)) : (decoySet x 2 r base).card = 2 := by
  rw [decoySet_two, Finset.card_insert_of_not_mem, Finset.card_singleton]
  intro hmem
  exact hne (decoyTag_inj (Finset.mem_singleton.mp hmem)).2

/-- An in-bounds `getD` picks an element of the list. -/
theorem getD_mem_of_lt : ∀ (l : List Tile) (i : Nat) (d : Tile), i < l.length →
    l.getD i d ∈ l
  | [], i, d => fun h => absurd h (by simp)
  | a :: l, 0, d => fun _ => List.mem_cons_self a l
  | a :: l, i + 1, d => fun h =>
    List.mem_cons_of_mem a (getD_mem_of_lt l i d (by simpa using h))

/-- Position `i` of the decoy loop's output is the `i`-th input tile with
its decoy set, drawn from stream positions `base + n*i` on. -/
theorem addDecoysGo_getD (n : Nat) (r : Nat → Nat) :
    ∀ (ts : List Tile) (base i : Nat), i < ts.length →
      (addDecoysGo n r base ts).getD i ⟨"", ∅⟩ =
        addDecoysTile (ts.getD i ⟨"", ∅⟩) n r (base + n * i)
  | [], _, i => fun h => absurd h (by simp)
  | t :: ts, base, 0 => fun _ => by
    simp [addDecoysGo]
  | t :: ts, base, i + 1 => fun h => by
    show (addDecoysGo n r (base + n) ts).getD i ⟨"", ∅⟩ = _
    rw [addDecoysGo_getD n r ts (base + n) i (by simpa using h)]
    have harith : base + n + n * i = base + n * (i + 1) := by ring
    rw [harith]
    rfl

/-- `add_decoys_non_overlapping` per position. -/
theorem add_decoys_getD (ts : List Tile) (n : Nat) (r : Nat → Nat) (i : Nat)
    (hi : i < ts.length) :
    (add_decoys_non_overlapping ts n r).getD i ⟨"", ∅⟩ =
      addDecoysTile (ts.getD i ⟨"", ∅⟩) n r (n * i) := by
  have h := addDecoysGo_getD n r ts 0 i hi
  rwa [Nat.zero_add] at h

/-- What decoy injection guarantees (the amended C7), per input list and
draw stream, phrased over positions `i`, `j` of the tile list. -/
def c7Conclusion (ts : List Tile) (n : Nat) (r : Nat → Nat) : Prop :=
  (add_decoys_non_overlapping ts n r).map Tile.name = ts.map Tile.name ∧
  ∀ i, i < ts.length →
    (((add_decoys_non_overlapping ts n r).getD i ⟨"", ∅⟩).tags =
        (ts.getD i ⟨"", ∅⟩).tags ∪ decoySet (ts.getD i ⟨"", ∅⟩).name n r (n * i)) ∧
    (∀ tag ∈ decoySet (ts.getD i ⟨"", ∅⟩).name n r (n * i), is_real_tag tag = false) ∧
    (n = 1 → ((add_decoys_non_overlapping ts n r).getD i ⟨"", ∅⟩).tags.card =
        (ts.getD i ⟨"", ∅⟩).tags.card + 1) ∧
    (n = 2 → r (n * i) ≠ r (n * i + 1) →
      ((add_decoys_non_overlapping ts n r).getD i ⟨"", ∅⟩).tags.card =
        (ts.getD i ⟨"", ∅⟩).tags.card + 2) ∧
    ∀ j, j < ts.length → (ts.getD i ⟨"", ∅⟩).name ≠ (ts.getD j ⟨"", ∅⟩).name →
      decoySet (ts.getD i ⟨"", ∅⟩).name n r (n * i) ∩
          decoySet (ts.getD j ⟨"", ∅⟩).name n r (n * j) = ∅ ∧
      ((add_decoys_non_overlapping ts n r).getD i ⟨"", ∅⟩).tags ∩
          ((add_decoys_non_overlapping ts n r).getD j ⟨"", ∅⟩).tags =
        (ts.getD i ⟨"", ∅⟩).tags ∩ (ts.getD j ⟨"", ∅⟩).tags

/-- Claim C7 (amended): over any base tile list whose tags are all real and
any draw stream (the embedding of a seeded `randint` sequence), decoy
injection keeps names, gives each tile the union of its old tags and its
own decoy set, adds exactly 1 decoy in Medium, exactly 2 in Hard whenever
the tile's two draws differ (the counterexample shows a repeated draw
collapses them to 1), injects only non-real tags (so never a tag equal to
any real tag of any tile), keeps decoy sets of distinct-named tiles
disjoint, and leaves every distinct-named pair's shared-tag set exactly as
it was. -/
theorem c7_decoys_amended (ts : List Tile) (n : Nat) (r : Nat → Nat)
    (hreal : ∀ t ∈ ts, ∀ tag ∈ t.tags, is_real_tag tag = true) :
    c7Conclusion ts n r := by
  unfold c7Conclusion
  refine ⟨addDecoysGo_map_name n r 0 ts, ?_⟩
  intro i hi
  have hres := add_decoys_getD ts n r i hi
  have htreal := hreal (ts.getD i ⟨"", ∅⟩) (getD_mem_of_lt ts i ⟨"", ∅⟩ hi)
  have hdisj : Disjoint (ts.getD i ⟨"", ∅⟩).tags
      (decoySet (ts.getD i ⟨"", ∅⟩).name n r (n * i)) := by
    rw [Finset.disjoint_left]
    intro tag ht hd
    have h1 := htreal tag ht
    have h2 := decoySet_not_real tag hd
    rw [h1] at h2
    exact absurd h2 (by simp)
  have htags : ((add_decoys_non_overlapping ts n r).getD i ⟨"", ∅⟩).tags =
      (ts.getD i ⟨"", ∅⟩).tags ∪ decoySet (ts.getD i ⟨"", ∅⟩).name n r (n * i) := by
    rw [hres]
    rfl
  refine ⟨htags, decoySet_not_real, ?_, ?_, ?_⟩
  · rintro rfl
    rw [htags, Finset.card_union_of_disjoint hdisj, decoySet_one]
    rw [Finset.card_singleton]
  · rintro rfl hne
    rw [htags, Finset.card_union_of_disjoint hdisj, decoySet_two_card _ r (2 * i) hne]
  · intro j hj hname
    have hresj := add_decoys_getD ts n r j hj
    have hureal := hreal (ts.getD j ⟨"", ∅⟩) (getD_mem_of_lt ts j ⟨"", ∅⟩ hj)
    have hdd : decoySet (ts.getD i ⟨"", ∅⟩).name n r (n * i) ∩
        decoySet (ts.getD j ⟨"", ∅⟩).name n r (n * j) = ∅ :=
      decoySet_disjoint hname
    refine ⟨hdd, ?_⟩
    have htagsj : ((add_decoys_non_overlapping ts n r).getD j ⟨"", ∅⟩).tags =
        (ts.getD j ⟨"", ∅⟩).tags ∪ decoySet (ts.getD j ⟨"", ∅⟩).name n r (n * j) := by
      rw [hresj]
      rfl
    rw [htags, htagsj]
    ext tag
    simp only [Finset.mem_inter, Finset.mem_union]
    constructor
    · rintro ⟨hti | hdi, htj | hdj⟩
      · exact ⟨hti, htj⟩
      · exfalso
        have h1 := htreal tag hti
        have h2 := decoySet_not_real tag hdj
        rw [h1] at h2
        exact absurd h2 (by simp)
      · exfalso
        have h1 := hureal tag htj
        have h2 := decoySet_not_real tag hdi
        rw [h1] at h2
        exact absurd h2 (by simp)
      · exfalso
        have hmem := Finset.mem_inter.mpr ⟨hdi, hdj⟩
        rw [hdd] at hmem
        exact absurd hmem (Finset.not_mem_empty tag)
    · rintro ⟨hti, htj⟩
      exact ⟨Or.inl hti, Or.inl htj⟩

/-- Counterexample to C7 as stated: a draw stream that repeats an in-range
value (1234 twice) makes Hard-mode decoy injection add only ONE decoy tag
to a tile instead of exactly two — the second `tags.add` of the identical
string is a no-op on the set. -/
theorem c7_repeated_draw_counterexample :
    1000 ≤ 1234 ∧ 1234 ≤ 9999 ∧
      add_decoys_non_overlapping [⟨"X", ∅⟩] 2 (fun _ => 1234) =
        [⟨"X", {"decoy:X:1234"}⟩] := by decide

/-- Witness for the amended C7: puzzle 1's tiles have only real tags, and
the theorem applies to them with one decoy per tile and the stream
`i ↦ 1000 + i`. -/
theorem c7_decoys_amended_witness :
    (∀ t ∈ tiles1, ∀ tag ∈ t.tags, is_real_tag tag = true) ∧
      c7Conclusion tiles1 1 (fun i => 1000 + i) :=
  ⟨by decide, c7_decoys_amended tiles1 1 (fun i => 1000 + i) (by decide)⟩

end WordChain
